import Mathlib

/-!
Shallow embedding of the `prospect_core` package (files
`prospect_core/core/graph.py` and `prospect_core/core/work_unit.py`).

Python machine-level details are modelled as follows:
* Python `int` is unbounded, so it is embedded as `Int`.
* Python `float` true division in `WorkUnit.risk_weighted_value` is modelled
  exactly over `ℚ` (all quantities of interest are exactly representable).
* A pydantic model with validators is embedded as a constructor function
  returning `Except`: field validators for distinct fields are collected
  together (pydantic aggregates per-field errors into one ValidationError),
  while `model_validator(mode="after")` validators run sequentially in
  definition order and the first raise aborts the chain.
* `warnings.warn` is a side channel: construction returns the graph together
  with the list of emitted warnings.
* Python's `RecursionError` (recursion limit) is modelled by an explicit fuel
  parameter `limit` on the recursive discovery functions: fuel `0` means the
  recursion limit has been exceeded.
* `sorted(set(xs))` over `int` is the strictly increasing enumeration of the
  distinct elements of `xs`, computed here by `sortedUnique`.
-/

deriving instance DecidableEq for Except

/-- `Direction` enum from `graph.py`. -/
inductive Direction where
  | from_upstream
  | from_downstream
deriving DecidableEq, Repr

/-- `WorkUnit` pydantic model from `work_unit.py` (field values as accepted
by a successful construction). -/
structure WorkUnit where
  id : Int
  dependent_on_success : List Int
  dependent_on_unconditionally : List Int
  probability_of_success : Int
  success_value : Int
  unconditional_value : Int
deriving DecidableEq, Repr

/-- Errors raised while constructing a `WorkUnit`: the pydantic field
constraint `ge=0, le=100` on `probability_of_success`, and the
`_success_value_ge_unconditional_value` model validator. -/
inductive WorkUnitError where
  | rangeError (probability_of_success : Int)
  | valueOrderingError
deriving DecidableEq, Repr

/-- Construction of a `WorkUnit`: pydantic validates the field constraint on
`probability_of_success` first, then runs the after-model validator comparing
`success_value` with `unconditional_value`. -/
def mkWorkUnit (id : Int) (dependent_on_success dependent_on_unconditionally : List Int)
    (probability_of_success success_value unconditional_value : Int) :
    Except WorkUnitError WorkUnit :=
  if probability_of_success < 0 ∨ 100 < probability_of_success then
    .error (.rangeError probability_of_success)
  else if success_value < unconditional_value then
    .error .valueOrderingError
  else
    .ok ⟨id, dependent_on_success, dependent_on_unconditionally,
      probability_of_success, success_value, unconditional_value⟩

/-- `WorkUnit.risk_weighted_value`:
`unconditional_value + (success_value - unconditional_value) * (probability_of_success / 100)`,
with Python float division modelled exactly over `ℚ`. -/
def WorkUnit.risk_weighted_value (w : WorkUnit) : ℚ :=
  (w.unconditional_value : ℚ) +
    ((w.success_value : ℚ) - (w.unconditional_value : ℚ)) *
      ((w.probability_of_success : ℚ) / 100)

/-- `Node` pydantic model from `graph.py`, generic over the payload shapes
`B` (base variables), `P` (pulled variables) and `M` (metadata), exactly as
the Python class is generic over `BaseVariablesT`, `PulledVariablesT` and
`MetadataT`. -/
structure Node (B P M : Type) where
  id : Int
  name : String
  base_variables : B
  pulled_variables : P
  metadata : M
  pull_from_downstream_agg_key : String
  pull_from_upstream_agg_key : String
  pulled_from_downstream : Bool := false
  pulled_from_upstream : Bool := false
deriving DecidableEq

/-- `Edge` pydantic model from `graph.py` (field values as accepted by a
successful construction; the `_no_dup_node_ids` validator lives in
`mkEdge`). -/
structure Edge where
  id : Int
  name : String
  downstream_node_id : Int
  upstream_node_id : Int
  downstream_method_key : String
  upstream_method_key : String
deriving DecidableEq, Repr

/-- Error raised by the `Edge._no_dup_node_ids` model validator: the edge is
a self-loop (`downstream_node_id == upstream_node_id`). -/
inductive EdgeError where
  | selfLoop (id : Int) (name : String)
deriving DecidableEq, Repr

/-- Construction of an `Edge`, running the `_no_dup_node_ids` model
validator: fails iff `downstream_node_id == upstream_node_id`. -/
def mkEdge (id : Int) (name : String) (downstream_node_id upstream_node_id : Int)
    (downstream_method_key upstream_method_key : String) : Except EdgeError Edge :=
  if downstream_node_id = upstream_node_id then
    .error (.selfLoop id name)
  else
    .ok ⟨id, name, downstream_node_id, upstream_node_id,
      downstream_method_key, upstream_method_key⟩

/-- `Graph` pydantic model from `graph.py`, generic over the payload shapes
and over the types `PM`/`AM` of the pull- and aggregation-method values
(the Python `PullMethod` / `AggregationMethod` protocol members); the method
registries (Python `dict`s) are embedded as association lists. -/
structure Graph (B P M G PM AM : Type) where
  nodes : List (Node B P M)
  edges : List Edge
  global_variables : G
  pull_methods : List (String × PM)
  agg_methods : List (String × AM)
deriving DecidableEq

/-- Insert an `Int` into a strictly sorted list, keeping it strictly sorted
(duplicates are dropped). -/
def insertSorted (a : Int) : List Int → List Int
  | [] => [a]
  | b :: t =>
    if a < b then a :: b :: t
    else if a = b then b :: t
    else b :: insertSorted a t

/-- `sorted(set(xs))` from Python: the strictly increasing enumeration of the
distinct elements of `xs`. -/
def sortedUnique (l : List Int) : List Int :=
  l.foldr insertSorted []

theorem mem_insertSorted (a b : Int) (l : List Int) :
    b ∈ insertSorted a l ↔ b = a ∨ b ∈ l := by
  induction l with
  | nil => simp [insertSorted]
  | cons c t ih =>
    by_cases h1 : a < c
    · simp [insertSorted, h1]
    · by_cases h2 : a = c
      · subst h2
        simp only [insertSorted, h1, if_false, if_pos rfl]
        constructor
        · intro h; exact Or.inr h
        · rintro (rfl | h) <;> simp_all
      · simp only [insertSorted, h1, h2, if_false, List.mem_cons, ih]
        tauto

theorem sorted_insertSorted (a : Int) (l : List Int)
    (h : l.Sorted (· < ·)) : (insertSorted a l).Sorted (· < ·) := by
  induction l with
  | nil => simp [insertSorted]
  | cons c t ih =>
    rw [List.sorted_cons] at h
    obtain ⟨hc, ht⟩ := h
    by_cases h1 : a < c
    · simp only [insertSorted, h1, if_true]
      rw [List.sorted_cons]
      refine ⟨?_, ?_⟩
      · intro b hb
        rcases List.mem_cons.mp hb with rfl | hb
        · exact h1
        · exact h1.trans (hc b hb)
      · rw [List.sorted_cons]; exact ⟨hc, ht⟩
    · by_cases h2 : a = c
      · subst h2
        have heq : insertSorted a (a :: t) = a :: t := by
          simp [insertSorted, h1]
        rw [heq, List.sorted_cons]; exact ⟨hc, ht⟩
      · simp only [insertSorted, h1, h2, if_false]
        rw [List.sorted_cons]
        refine ⟨?_, ih ht⟩
        intro b hb
        rcases (mem_insertSorted a b t).mp hb with rfl | hb
        · omega
        · exact hc b hb

theorem mem_sortedUnique (a : Int) (l : List Int) :
    a ∈ sortedUnique l ↔ a ∈ l := by
  induction l with
  | nil => simp [sortedUnique]
  | cons c t ih =>
    simp only [sortedUnique, List.foldr_cons, List.mem_cons]
    rw [mem_insertSorted]
    simp only [sortedUnique] at ih
    rw [ih]

theorem sorted_sortedUnique (l : List Int) :
    (sortedUnique l).Sorted (· < ·) := by
  induction l with
  | nil => simp [sortedUnique]
  | cons c t ih =>
    simp only [sortedUnique, List.foldr_cons]
    exact sorted_insertSorted c _ ih

theorem nodup_sortedUnique (l : List Int) : (sortedUnique l).Nodup :=
  (sorted_sortedUnique l).nodup

/-- Helper for `uniqKeys`: keeps the elements not yet seen, in order. -/
def uniqKeysAux {α : Type} [DecidableEq α] : List α → List α → List α
  | [], _ => []
  | a :: t, seen =>
    if a ∈ seen then uniqKeysAux t seen else a :: uniqKeysAux t (a :: seen)

/-- First-occurrence-order list of the distinct elements of `l` (the key
order of a Python dict built by iterating `l`). -/
def uniqKeys {α : Type} [DecidableEq α] (l : List α) : List α :=
  uniqKeysAux l []

/-- Structured content of the error messages of
`_validate_id_and_name_unique`: the `Duplicated ids:` dict, the
`Duplicated names:` dict, or (when both dimensions are duplicated) the
combined message carrying both dicts. -/
inductive DupError where
  | dupIds (dups_ids : List (Int × List (Int × String)))
  | dupNames (dups_names : List (String × List (Int × String)))
  | dupBoth (dups_ids : List (Int × List (Int × String)))
      (dups_names : List (String × List (Int × String)))
deriving DecidableEq, Repr

/-- The `dups_ids` dict of `_validate_id_and_name_unique`: every id that
occurs more than once, mapped to all `(id, name)` entries carrying it. -/
def dupsIds (pairs : List (Int × String)) : List (Int × List (Int × String)) :=
  (uniqKeys (pairs.map Prod.fst)).filterMap fun i =>
    let grp := pairs.filter fun p => decide (p.1 = i)
    if 1 < grp.length then some (i, grp) else none

/-- The `dups_names` dict of `_validate_id_and_name_unique`. -/
def dupsNames (pairs : List (Int × String)) : List (String × List (Int × String)) :=
  (uniqKeys (pairs.map Prod.snd)).filterMap fun n =>
    let grp := pairs.filter fun p => decide (p.2 = n)
    if 1 < grp.length then some (n, grp) else none

/-- `_validate_id_and_name_unique` on the `(id, name)` pairs of a collection:
`none` when the collection passes, otherwise the raised error. -/
def dupCheck (pairs : List (Int × String)) : Option DupError :=
  let di := dupsIds pairs
  let dn := dupsNames pairs
  if di ≠ [] then
    if dn ≠ [] then some (.dupBoth di dn) else some (.dupIds di)
  else
    if dn ≠ [] then some (.dupNames dn) else none

/-- The scanning loop of `_validate_no_duped_edges`: walks the edge list
carrying the set of `(upstream_node_id, downstream_node_id)` pairs already
seen, accumulating the `duplicate_same_direction` and `bidirectional_edges`
lists. -/
def scanEdges : List Edge → List (Int × Int) →
    List (Int × String) → List (Int × String) →
    List (Int × String) × List (Int × String)
  | [], _, dups, bidir => (dups, bidir)
  | e :: rest, seen, dups, bidir =>
    let t := (e.upstream_node_id, e.downstream_node_id)
    let r := (e.downstream_node_id, e.upstream_node_id)
    let dups' := if t ∈ seen then dups ++ [(e.id, e.name)] else dups
    let seen' := if t ∈ seen then seen else seen ++ [t]
    let bidir' := if r ∈ seen' then bidir ++ [(e.id, e.name)] else bidir
    scanEdges rest seen' dups' bidir'

/-- Structured content of the errors an edge list can raise through its two
chained field validators: `_validate_id_and_name_unique` first, then (only
when that passes) `_validate_no_duped_edges`. -/
inductive EdgeFieldError where
  | dup (e : DupError)
  | dupedEdges (duplicate_same_direction bidirectional_edges : List (Int × String))
deriving DecidableEq, Repr

/-- The chained field validation of the `edges` field:
`_validate_id_and_name_unique`, then `_validate_no_duped_edges`. -/
def edgeFieldCheck (edges : List Edge) : Option EdgeFieldError :=
  match dupCheck (edges.map fun e => (e.id, e.name)) with
  | some d => some (.dup d)
  | none =>
    let s := scanEdges edges [] [] []
    if s.1 ≠ [] ∨ s.2 ≠ [] then some (.dupedEdges s.1 s.2) else none

/-- Structured content of the errors `Graph` construction can raise, one
constructor per raise site in `graph.py`. `fieldErrors` carries the
(pydantic-aggregated) errors of the `nodes` and `edges` field validators;
the remaining constructors correspond to the after-model validators.
`cycleDetected true` is the error raised while computing
`upstream_node_ids`, `cycleDetected false` the one raised while computing
`downstream_node_ids`. -/
inductive GraphError where
  | fieldErrors (nodes : Option DupError) (edges : Option EdgeFieldError)
  | missingPullMethodKeys (upstream downstream : List (Int × String × String))
  | missingAggMethodKeys (downstream upstream : List (Int × String × String))
  | invalidEdgeNodeIds (upstream downstream : List (Int × String × Int))
  | cycleDetected (duringUpstream : Bool)
deriving DecidableEq, Repr

/-- Warnings emitted on the side channel (`warnings.warn`) during graph
construction. -/
inductive GraphWarning where
  | orphanedNodes (nodes : List (Int × String))
deriving DecidableEq, Repr

/-- The recursive loop shared by `Node.discover_upstream` and
`Node.discover_downstream`: for each edge of `myEdges` run the recursive
discovery `rec` on the `src` endpoint and append that endpoint, extending
the accumulated list; a `none` from `rec` (the recursion limit) propagates. -/
def discoverList (src : Edge → Int) (rec : Int → Option (List Int)) :
    List Edge → Option (List Int)
  | [] => some []
  | e :: rest => do
    let out ← rec (src e)
    let others ← discoverList src rec rest
    pure (out ++ src e :: others)

/-- The generic form of `Node.discover_upstream` / `discover_downstream`:
filter the edges whose `tgt` endpoint is the current node id, recurse on
their `src` endpoints (each level of recursion consumes one unit of fuel,
fuel 0 modelling Python's `RecursionError`), and return
`sorted(set(...))` of the accumulated ids.  The Python methods look the
`src` endpoint up in `nodes_as_dict` and recurse on that node, whose id is
the key itself, so recursing directly on the id is faithful whenever the
lookup succeeds (guaranteed for graphs that passed
`_validate_edge_node_ids`). -/
def discoverGen (src tgt : Edge → Int) (edges : List Edge) :
    Nat → Int → Option (List Int)
  | 0, _ => none
  | fuel + 1, i =>
    (discoverList src (discoverGen src tgt edges fuel)
      (edges.filter fun e => decide (tgt e = i))).map sortedUnique

/-- `Node.discover_upstream`: follow edges where this node is downstream,
collecting upstream ancestors. -/
def discoverUpstream (edges : List Edge) (fuel : Nat) (i : Int) : Option (List Int) :=
  discoverGen (fun e => e.upstream_node_id) (fun e => e.downstream_node_id) edges fuel i

/-- `Node.discover_downstream`: follow edges where this node is upstream,
collecting downstream descendants. -/
def discoverDownstream (edges : List Edge) (fuel : Nat) (i : Int) : Option (List Int) :=
  discoverGen (fun e => e.downstream_node_id) (fun e => e.upstream_node_id) edges fuel i

/-- `Node.discover_upstream` as the method on `Node`. -/
def Node.discover_upstream {B P M G PM AM : Type} (n : Node B P M)
    (g : Graph B P M G PM AM) (fuel : Nat) : Option (List Int) :=
  discoverUpstream g.edges fuel n.id

/-- `Node.discover_downstream` as the method on `Node`. -/
def Node.discover_downstream {B P M G PM AM : Type} (n : Node B P M)
    (g : Graph B P M G PM AM) (fuel : Nat) : Option (List Int) :=
  discoverDownstream g.edges fuel n.id

/-- The dict comprehension of `Graph.upstream_node_ids` /
`downstream_node_ids`: discover for every node in order; the first
`RecursionError` aborts the whole computation. -/
def discoverAll {B P M : Type} (disc : Int → Option (List Int)) :
    List (Node B P M) → Option (List (Int × List Int))
  | [] => some []
  | n :: rest => do
    let l ← disc n.id
    let others ← discoverAll disc rest
    pure ((n.id, l) :: others)

/-- `Graph.upstream_node_ids` at a given recursion limit. -/
def Graph.upstream_node_ids {B P M G PM AM : Type} (g : Graph B P M G PM AM)
    (fuel : Nat) : Option (List (Int × List Int)) :=
  discoverAll (discoverUpstream g.edges fuel) g.nodes

/-- `Graph.downstream_node_ids` at a given recursion limit. -/
def Graph.downstream_node_ids {B P M G PM AM : Type} (g : Graph B P M G PM AM)
    (fuel : Nat) : Option (List (Int × List Int)) :=
  discoverAll (discoverDownstream g.edges fuel) g.nodes

/-- The `[(edge.id, edge.name, edge.upstream_method_key), ...]` list of
`_validate_pull_method_keys`. -/
def missingUpstreamPullKeys {PM : Type} (pull_methods : List (String × PM))
    (edges : List Edge) : List (Int × String × String) :=
  (edges.filter fun e =>
    decide (e.upstream_method_key ∉ pull_methods.map Prod.fst)).map
      fun e => (e.id, e.name, e.upstream_method_key)

/-- The missing-downstream-keys list of `_validate_pull_method_keys`. -/
def missingDownstreamPullKeys {PM : Type} (pull_methods : List (String × PM))
    (edges : List Edge) : List (Int × String × String) :=
  (edges.filter fun e =>
    decide (e.downstream_method_key ∉ pull_methods.map Prod.fst)).map
      fun e => (e.id, e.name, e.downstream_method_key)

/-- The missing-downstream-aggregation-keys list of
`_validate_agg_method_keys`. -/
def missingDownstreamAggKeys {B P M AM : Type} (agg_methods : List (String × AM))
    (nodes : List (Node B P M)) : List (Int × String × String) :=
  (nodes.filter fun n =>
    decide (n.pull_from_downstream_agg_key ∉ agg_methods.map Prod.fst)).map
      fun n => (n.id, n.name, n.pull_from_downstream_agg_key)

/-- The missing-upstream-aggregation-keys list of
`_validate_agg_method_keys`. -/
def missingUpstreamAggKeys {B P M AM : Type} (agg_methods : List (String × AM))
    (nodes : List (Node B P M)) : List (Int × String × String) :=
  (nodes.filter fun n =>
    decide (n.pull_from_upstream_agg_key ∉ agg_methods.map Prod.fst)).map
      fun n => (n.id, n.name, n.pull_from_upstream_agg_key)

/-- The invalid-upstream-node-id list of `_validate_edge_node_ids`. -/
def invalidUpstreamNodeIds {B P M : Type} (nodes : List (Node B P M))
    (edges : List Edge) : List (Int × String × Int) :=
  (edges.filter fun e =>
    decide (e.upstream_node_id ∉ nodes.map Node.id)).map
      fun e => (e.id, e.name, e.upstream_node_id)

/-- The invalid-downstream-node-id list of `_validate_edge_node_ids`. -/
def invalidDownstreamNodeIds {B P M : Type} (nodes : List (Node B P M))
    (edges : List Edge) : List (Int × String × Int) :=
  (edges.filter fun e =>
    decide (e.downstream_node_id ∉ nodes.map Node.id)).map
      fun e => (e.id, e.name, e.downstream_node_id)

/-- The orphaned-nodes list of `_warn_orphaned_nodes`: nodes whose id
appears in no edge, as `(id, name)` pairs. -/
def orphanedNodePairs {B P M : Type} (nodes : List (Node B P M))
    (edges : List Edge) : List (Int × String) :=
  (nodes.filter fun n =>
    decide (n.id ∉ edges.map Edge.upstream_node_id ++
      edges.map Edge.downstream_node_id)).map fun n => (n.id, n.name)

/-- `Graph` construction: pydantic first runs the field validators of the
`nodes` and `edges` fields (collecting the errors of both fields into one
ValidationError), then the `model_validator(mode="after")` validators in
definition order — `_validate_pull_method_keys`, `_validate_agg_method_keys`,
`_validate_edge_node_ids`, `_warn_orphaned_nodes` (a warning, never an
error), `_validate_acyclic` — where the first raise aborts the chain.
`limit` is the Python recursion limit governing the recursive discovery in
`_validate_acyclic`. -/
def mkGraph {B P M G PM AM : Type} (limit : Nat) (nodes : List (Node B P M))
    (edges : List Edge) (global_variables : G) (pull_methods : List (String × PM))
    (agg_methods : List (String × AM)) :
    Except GraphError (Graph B P M G PM AM × List GraphWarning) :=
  let ndup := dupCheck (nodes.map fun n => (n.id, n.name))
  let efe := edgeFieldCheck edges
  if ndup ≠ none ∨ efe ≠ none then
    .error (.fieldErrors ndup efe)
  else
    let g : Graph B P M G PM AM :=
      ⟨nodes, edges, global_variables, pull_methods, agg_methods⟩
    let pullUp := missingUpstreamPullKeys pull_methods edges
    let pullDown := missingDownstreamPullKeys pull_methods edges
    if pullUp ≠ [] ∨ pullDown ≠ [] then
      .error (.missingPullMethodKeys pullUp pullDown)
    else
      let aggDown := missingDownstreamAggKeys agg_methods nodes
      let aggUp := missingUpstreamAggKeys agg_methods nodes
      if aggDown ≠ [] ∨ aggUp ≠ [] then
        .error (.missingAggMethodKeys aggDown aggUp)
      else
        let invUp := invalidUpstreamNodeIds nodes edges
        let invDown := invalidDownstreamNodeIds nodes edges
        if invUp ≠ [] ∨ invDown ≠ [] then
          .error (.invalidEdgeNodeIds invUp invDown)
        else
          let orphans := orphanedNodePairs nodes edges
          let warns := if orphans ≠ [] then [GraphWarning.orphanedNodes orphans] else []
          match g.upstream_node_ids limit with
          | none => .error (.cycleDetected true)
          | some _ =>
            match g.downstream_node_ids limit with
            | none => .error (.cycleDetected false)
            | some _ => .ok (g, warns)

/-- `Graph.node_ids`: sorted list of all node ids (duplicates kept, as
Python's `sorted(list)`). -/
def Graph.node_ids {B P M G PM AM : Type} (g : Graph B P M G PM AM) : List Int :=
  (g.nodes.map Node.id).insertionSort (· ≤ ·)

/-- `Graph.edge_ids`: sorted list of all edge ids. -/
def Graph.edge_ids {B P M G PM AM : Type} (g : Graph B P M G PM AM) : List Int :=
  (g.edges.map Edge.id).insertionSort (· ≤ ·)

/-- `Graph.root_nodes`: the nodes whose id is in
`set(node_ids) - {e.downstream_node_id}`, listed in node order. -/
def Graph.root_nodes {B P M G PM AM : Type} (g : Graph B P M G PM AM) :
    List (Node B P M) :=
  let non_root_node_ids := g.edges.map Edge.downstream_node_id
  let root_node_ids := g.node_ids.filter fun i => decide (i ∉ non_root_node_ids)
  g.nodes.filter fun n => decide (n.id ∈ root_node_ids)

/-- `Graph.leaf_nodes`: the nodes whose id is in
`set(node_ids) - {e.upstream_node_id}`, listed in node order. -/
def Graph.leaf_nodes {B P M G PM AM : Type} (g : Graph B P M G PM AM) :
    List (Node B P M) :=
  let non_leaf_node_ids := g.edges.map Edge.upstream_node_id
  let leaf_node_ids := g.node_ids.filter fun i => decide (i ∉ non_leaf_node_ids)
  g.nodes.filter fun n => decide (n.id ∈ leaf_node_ids)

/-- One step of the upstream relation discovered by `discoverGen src tgt`:
there is an edge whose `src` endpoint is `a` and whose `tgt` endpoint is
`b`. -/
def stepRel (src tgt : Edge → Int) (edges : List Edge) (a b : Int) : Prop :=
  ∃ e ∈ edges, src e = a ∧ tgt e = b

theorem discoverList_some_of_mem {src : Edge → Int} {rec : Int → Option (List Int)} :
    ∀ {es : List Edge} {l : List Int}, discoverList src rec es = some l →
      ∀ {e : Edge}, e ∈ es → ∃ o, rec (src e) = some o := by
  intro es
  induction es with
  | nil => intro l _ e he; cases he
  | cons e0 rest ih =>
    intro l h e he
    simp only [discoverList, Option.bind_eq_bind, Option.bind_eq_some] at h
    obtain ⟨o, ho, others, hothers, _⟩ := h
    rcases List.mem_cons.mp he with rfl | he'
    · exact ⟨o, ho⟩
    · exact ih hothers he'

theorem mem_discoverList {src : Edge → Int} {rec : Int → Option (List Int)} :
    ∀ {es : List Edge} {l : List Int}, discoverList src rec es = some l →
      ∀ a, a ∈ l ↔ ∃ e ∈ es, (∃ o, rec (src e) = some o ∧ a ∈ o) ∨ a = src e := by
  intro es
  induction es with
  | nil =>
    intro l h a
    simp only [discoverList] at h
    cases h
    simp
  | cons e0 rest ih =>
    intro l h a
    simp only [discoverList, Option.bind_eq_bind, Option.bind_eq_some] at h
    obtain ⟨o, ho, others, hothers, hl⟩ := h
    cases hl
    simp only [List.mem_append, List.mem_cons, ih hothers a]
    constructor
    · rintro ((hao | (rfl | hmem)))
      · exact ⟨e0, Or.inl rfl, Or.inl ⟨o, ho, hao⟩⟩
      · exact ⟨e0, Or.inl rfl, Or.inr rfl⟩
      · obtain ⟨e, he, h'⟩ := hmem
        exact ⟨e, Or.inr he, h'⟩
    · rintro ⟨e, he, h'⟩
      rcases he with rfl | he'
      · rcases h' with ⟨o', ho', hao'⟩ | rfl
        · rw [ho] at ho'; cases ho'
          exact Or.inl hao'
        · exact Or.inr (Or.inl rfl)
      · exact Or.inr (Or.inr ⟨e, he', h'⟩)

theorem discoverGen_mem (src tgt : Edge → Int) (edges : List Edge) :
    ∀ (fuel : Nat) (i : Int) (l : List Int),
      discoverGen src tgt edges fuel i = some l →
      ∀ a, a ∈ l ↔ Relation.TransGen (stepRel src tgt edges) a i := by
  intro fuel
  induction fuel with
  | zero => intro i l h; simp [discoverGen] at h
  | succ f ih =>
    intro i l h a
    simp only [discoverGen, Option.map_eq_some'] at h
    obtain ⟨l0, hl0, rfl⟩ := h
    rw [mem_sortedUnique, mem_discoverList hl0 a]
    constructor
    · rintro ⟨e, hef, h'⟩
      obtain ⟨heE, hti⟩ := List.mem_filter.mp hef
      have hti' : tgt e = i := of_decide_eq_true hti
      rcases h' with ⟨o, ho, hao⟩ | rfl
      · exact Relation.TransGen.tail ((ih _ o ho a).mp hao) ⟨e, heE, rfl, hti'⟩
      · exact Relation.TransGen.single ⟨e, heE, rfl, hti'⟩
    · intro htg
      rcases Relation.TransGen.tail'_iff.mp htg with ⟨b, hab, e, heE, hsrc, htgt⟩
      have hef : e ∈ edges.filter fun e => decide (tgt e = i) :=
        List.mem_filter.mpr ⟨heE, decide_eq_true htgt⟩
      rcases Relation.reflTransGen_iff_eq_or_transGen.mp hab with heq | htab
      · exact ⟨e, hef, Or.inr (heq ▸ hsrc.symm)⟩
      · obtain ⟨o, ho⟩ := discoverList_some_of_mem hl0 hef
        refine ⟨e, hef, Or.inl ⟨o, ho, ?_⟩⟩
        exact (ih _ o ho a).mpr (hsrc.symm ▸ htab)

theorem discoverGen_sorted (src tgt : Edge → Int) (edges : List Edge)
    (fuel : Nat) (i : Int) (l : List Int)
    (h : discoverGen src tgt edges fuel i = some l) :
    l.Sorted (· < ·) ∧ l.Nodup := by
  match fuel with
  | 0 => simp [discoverGen] at h
  | f + 1 =>
    simp only [discoverGen, Option.map_eq_some'] at h
    obtain ⟨l0, _, rfl⟩ := h
    exact ⟨sorted_sortedUnique l0, nodup_sortedUnique l0⟩

theorem discoverGen_step_some {src tgt : Edge → Int} {edges : List Edge}
    {f : Nat} {i b : Int} {l : List Int}
    (h : discoverGen src tgt edges (f + 1) i = some l)
    (hstep : stepRel src tgt edges b i) :
    ∃ l', discoverGen src tgt edges f b = some l' := by
  simp only [discoverGen, Option.map_eq_some'] at h
  obtain ⟨l0, hl0, _⟩ := h
  obtain ⟨e, heE, hsrc, htgt⟩ := hstep
  have hef : e ∈ edges.filter fun e => decide (tgt e = i) :=
    List.mem_filter.mpr ⟨heE, decide_eq_true htgt⟩
  obtain ⟨o, ho⟩ := discoverList_some_of_mem hl0 hef
  exact ⟨o, hsrc ▸ ho⟩

theorem discoverGen_fuel_descent {src tgt : Edge → Int} {edges : List Edge}
    {a i : Int} (htg : Relation.TransGen (stepRel src tgt edges) a i) :
    ∀ (f : Nat) (l : List Int), discoverGen src tgt edges f i = some l →
      ∃ f' l', f' < f ∧ discoverGen src tgt edges f' a = some l' := by
  induction htg with
  | single hstep =>
    intro f l h
    match f with
    | 0 => simp [discoverGen] at h
    | f + 1 =>
      obtain ⟨l', hl'⟩ := discoverGen_step_some h hstep
      exact ⟨f, l', Nat.lt_succ_self f, hl'⟩
  | tail _ hstep ih =>
    intro f l h
    match f with
    | 0 => simp [discoverGen] at h
    | f + 1 =>
      obtain ⟨l0, hl0⟩ := discoverGen_step_some h hstep
      obtain ⟨f', l', hf', h'⟩ := ih f l0 hl0
      exact ⟨f', l', Nat.lt_succ_of_lt hf', h'⟩

theorem discoverGen_no_self_cycle (src tgt : Edge → Int) (edges : List Edge) :
    ∀ (f : Nat) (i : Int) (l : List Int), discoverGen src tgt edges f i = some l →
      ¬ Relation.TransGen (stepRel src tgt edges) i i := by
  intro f
  induction f using Nat.strong_induction_on with
  | _ f ih =>
    intro i l h hcyc
    obtain ⟨f', l', hf', h'⟩ := discoverGen_fuel_descent hcyc f l h
    exact ih f' hf' i l' h' hcyc

theorem discoverAll_some_iff {B P M : Type} (disc : Int → Option (List Int)) :
    ∀ (ns : List (Node B P M)),
      (∃ r, discoverAll disc ns = some r) ↔ ∀ n ∈ ns, ∃ l, disc n.id = some l := by
  intro ns
  induction ns with
  | nil => simp [discoverAll]
  | cons n rest ih =>
    simp only [discoverAll, Option.bind_eq_bind, List.mem_cons]
    constructor
    · rintro ⟨r, hr⟩
      rw [Option.bind_eq_some] at hr
      obtain ⟨l, hl, hr'⟩ := hr
      rw [Option.bind_eq_some] at hr'
      obtain ⟨others, hothers, _⟩ := hr'
      intro m hm
      rcases hm with rfl | hm'
      · exact ⟨l, hl⟩
      · exact (ih.mp ⟨others, hothers⟩) m hm'
    · intro hall
      obtain ⟨l, hl⟩ := hall n (Or.inl rfl)
      obtain ⟨others, hothers⟩ := ih.mpr fun m hm => hall m (Or.inr hm)
      exact ⟨(n.id, l) :: others, by simp [hl, hothers]⟩

theorem mkGraph_ok_inv {B P M G PM AM : Type} {limit : Nat} {nodes : List (Node B P M)}
    {edges : List Edge} {gv : G} {pms : List (String × PM)} {ams : List (String × AM)}
    {g : Graph B P M G PM AM} {ws : List GraphWarning}
    (h : mkGraph limit nodes edges gv pms ams = .ok (g, ws)) :
    g = ⟨nodes, edges, gv, pms, ams⟩ ∧
    dupCheck (nodes.map fun n => (n.id, n.name)) = none ∧
    edgeFieldCheck edges = none ∧
    missingUpstreamPullKeys pms edges = [] ∧
    missingDownstreamPullKeys pms edges = [] ∧
    missingDownstreamAggKeys ams nodes = [] ∧
    missingUpstreamAggKeys ams nodes = [] ∧
    invalidUpstreamNodeIds nodes edges = [] ∧
    invalidDownstreamNodeIds nodes edges = [] ∧
    (∃ r, (Graph.mk nodes edges gv pms ams : Graph B P M G PM AM).upstream_node_ids limit
      = some r) ∧
    (∃ r, (Graph.mk nodes edges gv pms ams : Graph B P M G PM AM).downstream_node_ids limit
      = some r) ∧
    ws = (if orphanedNodePairs nodes edges ≠ [] then
      [GraphWarning.orphanedNodes (orphanedNodePairs nodes edges)] else []) := by
  by_cases h1 : dupCheck (nodes.map fun n => (n.id, n.name)) ≠ none ∨
      edgeFieldCheck edges ≠ none
  · simp only [mkGraph, if_pos h1] at h
    exact Except.noConfusion h
  by_cases h2 : missingUpstreamPullKeys pms edges ≠ [] ∨
      missingDownstreamPullKeys pms edges ≠ []
  · simp only [mkGraph, if_neg h1, if_pos h2] at h
    exact Except.noConfusion h
  by_cases h3 : missingDownstreamAggKeys ams nodes ≠ [] ∨
      missingUpstreamAggKeys ams nodes ≠ []
  · simp only [mkGraph, if_neg h1, if_neg h2, if_pos h3] at h
    exact Except.noConfusion h
  by_cases h4 : invalidUpstreamNodeIds nodes edges ≠ [] ∨
      invalidDownstreamNodeIds nodes edges ≠ []
  · simp only [mkGraph, if_neg h1, if_neg h2, if_neg h3, if_pos h4] at h
    exact Except.noConfusion h
  simp only [mkGraph, if_neg h1, if_neg h2, if_neg h3, if_neg h4] at h
  push_neg at h1 h2 h3 h4
  split at h
  · exact Except.noConfusion h
  · rename_i r hr
    split at h
    · exact Except.noConfusion h
    · rename_i r' hr'
      simp only [Except.ok.injEq, Prod.mk.injEq] at h
      obtain ⟨hg, hws⟩ := h
      exact ⟨hg.symm, h1.1, h1.2, h2.1, h2.2, h3.1, h3.2, h4.1, h4.2,
        ⟨r, hr⟩, ⟨r', hr'⟩, hws.symm⟩

theorem mem_uniqKeysAux {α : Type} [DecidableEq α] :
    ∀ (l seen : List α) (a : α), a ∈ uniqKeysAux l seen ↔ a ∈ l ∧ a ∉ seen := by
  intro l
  induction l with
  | nil => simp [uniqKeysAux]
  | cons b t ih =>
    intro seen a
    by_cases hb : b ∈ seen
    · rw [uniqKeysAux, if_pos hb, ih]
      simp only [List.mem_cons]
      by_cases hab : a = b
      · subst hab; simp [hb]
      · simp [hab]
    · rw [uniqKeysAux, if_neg hb]
      simp only [List.mem_cons, ih]
      by_cases hab : a = b
      · subst hab; simp [hb]
      · simp [hab]

theorem mem_uniqKeys {α : Type} [DecidableEq α] (l : List α) (a : α) :
    a ∈ uniqKeys l ↔ a ∈ l := by
  rw [uniqKeys, mem_uniqKeysAux]
  simp

theorem filter_key_length_le_one {α κ : Type} [DecidableEq κ] (key : α → κ)
    {l : List α} (h : (l.map key).Nodup) (k : κ) :
    (l.filter fun a => decide (key a = k)).length ≤ 1 := by
  induction l with
  | nil => simp
  | cons p t ih =>
    simp only [List.map_cons, List.nodup_cons] at h
    obtain ⟨hp, ht⟩ := h
    by_cases he : key p = k
    · subst he
      have hnil : (t.filter fun a => decide (key a = key p)) = [] := by
        rw [List.filter_eq_nil_iff]
        intro q hq hdec
        have : key q = key p := of_decide_eq_true hdec
        exact hp (this ▸ List.mem_map_of_mem key hq)
      simp [List.filter_cons, hnil]
    · simp only [List.filter_cons, decide_eq_true_eq, if_neg he]
      exact ih ht

theorem dupsIds_eq_nil_of_nodup (pairs : List (Int × String))
    (h : (pairs.map Prod.fst).Nodup) : dupsIds pairs = [] := by
  rw [dupsIds, List.filterMap_eq_nil_iff]
  intro i _
  simp only [ite_eq_right_iff]
  intro hlt
  exact absurd hlt (Nat.not_lt.mpr (filter_key_length_le_one Prod.fst h i))

theorem dupsNames_eq_nil_of_nodup (pairs : List (Int × String))
    (h : (pairs.map Prod.snd).Nodup) : dupsNames pairs = [] := by
  rw [dupsNames, List.filterMap_eq_nil_iff]
  intro n _
  simp only [ite_eq_right_iff]
  intro hlt
  exact absurd hlt (Nat.not_lt.mpr (filter_key_length_le_one Prod.snd h n))

theorem mem_dupsIds (pairs : List (Int × String)) (i : Int)
    (h : 1 < (pairs.filter fun p => decide (p.1 = i)).length) :
    (i, pairs.filter fun p => decide (p.1 = i)) ∈ dupsIds pairs := by
  rw [dupsIds, List.mem_filterMap]
  refine ⟨i, ?_, ?_⟩
  · rw [mem_uniqKeys, List.mem_map]
    have hne : (pairs.filter fun p => decide (p.1 = i)) ≠ [] := by
      intro hnil; rw [hnil] at h; exact absurd h (by simp)
    obtain ⟨p, hp⟩ := List.exists_mem_of_ne_nil _ hne
    obtain ⟨hpm, hpi⟩ := List.mem_filter.mp hp
    exact ⟨p, hpm, of_decide_eq_true hpi⟩
  · rw [if_pos h]

theorem mem_dupsNames (pairs : List (Int × String)) (s : String)
    (h : 1 < (pairs.filter fun p => decide (p.2 = s)).length) :
    (s, pairs.filter fun p => decide (p.2 = s)) ∈ dupsNames pairs := by
  rw [dupsNames, List.mem_filterMap]
  refine ⟨s, ?_, ?_⟩
  · rw [mem_uniqKeys, List.mem_map]
    have hne : (pairs.filter fun p => decide (p.2 = s)) ≠ [] := by
      intro hnil; rw [hnil] at h; exact absurd h (by simp)
    obtain ⟨p, hp⟩ := List.exists_mem_of_ne_nil _ hne
    obtain ⟨hpm, hps⟩ := List.mem_filter.mp hp
    exact ⟨p, hpm, of_decide_eq_true hps⟩
  · rw [if_pos h]

theorem scanEdges_dups_mono :
    ∀ (es : List Edge) (seen : List (Int × Int)) (dups bidir : List (Int × String))
      (x : Int × String), x ∈ dups → x ∈ (scanEdges es seen dups bidir).1 := by
  intro es
  induction es with
  | nil => intro seen dups bidir x hx; exact hx
  | cons e rest ih =>
    intro seen dups bidir x hx
    simp only [scanEdges]
    apply ih
    by_cases ht : (e.upstream_node_id, e.downstream_node_id) ∈ seen
    · rw [if_pos ht]; exact List.mem_append_left _ hx
    · rw [if_neg ht]; exact hx

theorem scanEdges_bidir_mono :
    ∀ (es : List Edge) (seen : List (Int × Int)) (dups bidir : List (Int × String))
      (x : Int × String), x ∈ bidir → x ∈ (scanEdges es seen dups bidir).2 := by
  intro es
  induction es with
  | nil => intro seen dups bidir x hx; exact hx
  | cons e rest ih =>
    intro seen dups bidir x hx
    simp only [scanEdges]
    apply ih
    by_cases hr : (e.downstream_node_id, e.upstream_node_id) ∈
        (if (e.upstream_node_id, e.downstream_node_id) ∈ seen then seen
          else seen ++ [(e.upstream_node_id, e.downstream_node_id)])
    · rw [if_pos hr]; exact List.mem_append_left _ hx
    · rw [if_neg hr]; exact hx

theorem scanEdges_dup_reported :
    ∀ (l1 : List Edge) (e2 : Edge) (l2 : List Edge) (seen : List (Int × Int))
      (dups bidir : List (Int × String)),
      ((e2.upstream_node_id, e2.downstream_node_id) ∈ seen ∨
        ∃ e1 ∈ l1, (e1.upstream_node_id, e1.downstream_node_id) =
          (e2.upstream_node_id, e2.downstream_node_id)) →
      (e2.id, e2.name) ∈ (scanEdges (l1 ++ e2 :: l2) seen dups bidir).1 := by
  intro l1
  induction l1 with
  | nil =>
    intro e2 l2 seen dups bidir h
    rcases h with h | ⟨e1, he1, _⟩
    · rw [List.nil_append]
      simp only [scanEdges, if_pos h]
      exact scanEdges_dups_mono _ _ _ _ _
        (List.mem_append_right _ (List.mem_singleton_self _))
    · cases he1
  | cons e0 t ih =>
    intro e2 l2 seen dups bidir h
    rw [List.cons_append]
    simp only [scanEdges]
    apply ih
    rcases h with h | ⟨e1, he1, heq⟩
    · left
      by_cases h0 : (e0.upstream_node_id, e0.downstream_node_id) ∈ seen
      · rwa [if_pos h0]
      · rw [if_neg h0]; exact List.mem_append_left _ h
    · rcases List.mem_cons.mp he1 with rfl | he1'
      · left
        by_cases h0 : (e1.upstream_node_id, e1.downstream_node_id) ∈ seen
        · rw [if_pos h0]; exact heq ▸ h0
        · rw [if_neg h0, ← heq]
          exact List.mem_append_right _ (List.mem_singleton_self _)
      · right; exact ⟨e1, he1', heq⟩

theorem scanEdges_bidir_reported :
    ∀ (l1 : List Edge) (e2 : Edge) (l2 : List Edge) (seen : List (Int × Int))
      (dups bidir : List (Int × String)),
      ((e2.downstream_node_id, e2.upstream_node_id) ∈ seen ∨
        ∃ e1 ∈ l1, (e1.upstream_node_id, e1.downstream_node_id) =
          (e2.downstream_node_id, e2.upstream_node_id)) →
      (e2.id, e2.name) ∈ (scanEdges (l1 ++ e2 :: l2) seen dups bidir).2 := by
  intro l1
  induction l1 with
  | nil =>
    intro e2 l2 seen dups bidir h
    rcases h with h | ⟨e1, he1, _⟩
    · rw [List.nil_append]
      have hr : (e2.downstream_node_id, e2.upstream_node_id) ∈
          (if (e2.upstream_node_id, e2.downstream_node_id) ∈ seen then seen
            else seen ++ [(e2.upstream_node_id, e2.downstream_node_id)]) := by
        split
        · exact h
        · exact List.mem_append_left _ h
      simp only [scanEdges, if_pos hr]
      exact scanEdges_bidir_mono _ _ _ _ _
        (List.mem_append_right _ (List.mem_singleton_self _))
    · cases he1
  | cons e0 t ih =>
    intro e2 l2 seen dups bidir h
    rw [List.cons_append]
    simp only [scanEdges]
    apply ih
    rcases h with h | ⟨e1, he1, heq⟩
    · left
      by_cases h0 : (e0.upstream_node_id, e0.downstream_node_id) ∈ seen
      · rwa [if_pos h0]
      · rw [if_neg h0]; exact List.mem_append_left _ h
    · rcases List.mem_cons.mp he1 with rfl | he1'
      · left
        by_cases h0 : (e1.upstream_node_id, e1.downstream_node_id) ∈ seen
        · rw [if_pos h0]; exact heq ▸ h0
        · rw [if_neg h0, ← heq]
          exact List.mem_append_right _ (List.mem_singleton_self _)
      · right; exact ⟨e1, he1', heq⟩

theorem mem_node_ids {B P M G PM AM : Type} (g : Graph B P M G PM AM) (i : Int) :
    i ∈ g.node_ids ↔ i ∈ g.nodes.map Node.id := by
  rw [Graph.node_ids]
  exact (List.perm_insertionSort _ _).mem_iff

theorem mem_root_nodes {B P M G PM AM : Type} (g : Graph B P M G PM AM) (n : Node B P M) :
    n ∈ g.root_nodes ↔ n ∈ g.nodes ∧ ∀ e ∈ g.edges, e.downstream_node_id ≠ n.id := by
  rw [Graph.root_nodes]
  simp only [List.mem_filter, decide_eq_true_eq, mem_node_ids, List.mem_map]
  constructor
  · rintro ⟨hn, _, hno⟩
    exact ⟨hn, fun e he heq => hno ⟨e, he, heq⟩⟩
  · rintro ⟨hn, hne⟩
    refine ⟨hn, ⟨n, hn, rfl⟩, ?_⟩
    rintro ⟨e, he, heq⟩
    exact hne e he heq

theorem mem_leaf_nodes {B P M G PM AM : Type} (g : Graph B P M G PM AM) (n : Node B P M) :
    n ∈ g.leaf_nodes ↔ n ∈ g.nodes ∧ ∀ e ∈ g.edges, e.upstream_node_id ≠ n.id := by
  rw [Graph.leaf_nodes]
  simp only [List.mem_filter, decide_eq_true_eq, mem_node_ids, List.mem_map]
  constructor
  · rintro ⟨hn, _, hno⟩
    exact ⟨hn, fun e he heq => hno ⟨e, he, heq⟩⟩
  · rintro ⟨hn, hne⟩
    refine ⟨hn, ⟨n, hn, rfl⟩, ?_⟩
    rintro ⟨e, he, heq⟩
    exact hne e he heq

theorem root_nodes_perm {B P M G PM AM : Type} (g g' : Graph B P M G PM AM)
    (hn : g'.nodes.Perm g.nodes) (he : g'.edges.Perm g.edges) :
    g'.root_nodes.Perm g.root_nodes := by
  have key : ∀ i : Int,
      (i ∈ g'.node_ids.filter fun j =>
        decide (j ∉ g'.edges.map Edge.downstream_node_id)) ↔
      (i ∈ g.node_ids.filter fun j =>
        decide (j ∉ g.edges.map Edge.downstream_node_id)) := by
    intro i
    simp only [List.mem_filter, decide_eq_true_eq, mem_node_ids]
    rw [(hn.map Node.id).mem_iff, (he.map Edge.downstream_node_id).mem_iff]
  have hcongr : g'.root_nodes = g'.nodes.filter fun n =>
      decide (n.id ∈ g.node_ids.filter fun j =>
        decide (j ∉ g.edges.map Edge.downstream_node_id)) := by
    rw [Graph.root_nodes]
    exact List.filter_congr fun n _ => decide_eq_decide.mpr (key n.id)
  rw [hcongr, Graph.root_nodes]
  exact hn.filter _

theorem leaf_nodes_perm {B P M G PM AM : Type} (g g' : Graph B P M G PM AM)
    (hn : g'.nodes.Perm g.nodes) (he : g'.edges.Perm g.edges) :
    g'.leaf_nodes.Perm g.leaf_nodes := by
  have key : ∀ i : Int,
      (i ∈ g'.node_ids.filter fun j =>
        decide (j ∉ g'.edges.map Edge.upstream_node_id)) ↔
      (i ∈ g.node_ids.filter fun j =>
        decide (j ∉ g.edges.map Edge.upstream_node_id)) := by
    intro i
    simp only [List.mem_filter, decide_eq_true_eq, mem_node_ids]
    rw [(hn.map Node.id).mem_iff, (he.map Edge.upstream_node_id).mem_iff]
  have hcongr : g'.leaf_nodes = g'.nodes.filter fun n =>
      decide (n.id ∈ g.node_ids.filter fun j =>
        decide (j ∉ g.edges.map Edge.upstream_node_id)) := by
    rw [Graph.leaf_nodes]
    exact List.filter_congr fun n _ => decide_eq_decide.mpr (key n.id)
  rw [hcongr, Graph.leaf_nodes]
  exact hn.filter _

theorem invalid_nil_refs {B P M : Type} {nodes : List (Node B P M)} {edges : List Edge}
    (h1 : invalidUpstreamNodeIds nodes edges = [])
    (h2 : invalidDownstreamNodeIds nodes edges = []) :
    ∀ e ∈ edges, e.upstream_node_id ∈ nodes.map Node.id ∧
      e.downstream_node_id ∈ nodes.map Node.id := by
  intro e he
  rw [invalidUpstreamNodeIds, List.map_eq_nil_iff, List.filter_eq_nil_iff] at h1
  rw [invalidDownstreamNodeIds, List.map_eq_nil_iff, List.filter_eq_nil_iff] at h2
  constructor
  · have := h1 e he
    simp only [decide_eq_true_eq] at this
    exact not_not.mp this
  · have := h2 e he
    simp only [decide_eq_true_eq] at this
    exact not_not.mp this

theorem mkGraph_ok_discover {B P M G PM AM : Type} {limit : Nat}
    {nodes : List (Node B P M)} {edges : List Edge} {gv : G}
    {pms : List (String × PM)} {ams : List (String × AM)}
    {g : Graph B P M G PM AM} {ws : List GraphWarning}
    (h : mkGraph limit nodes edges gv pms ams = .ok (g, ws)) :
    ∀ n ∈ nodes, (∃ l, discoverUpstream edges limit n.id = some l) ∧
      (∃ l, discoverDownstream edges limit n.id = some l) := by
  obtain ⟨-, -, -, -, -, -, -, -, -, hu, hd, -⟩ := mkGraph_ok_inv h
  intro n hn
  exact ⟨(discoverAll_some_iff _ nodes).mp hu n hn,
    (discoverAll_some_iff _ nodes).mp hd n hn⟩

/-- The single-edge reachability relation of a graph: `edgeStep g a b` holds
when some edge of `g` has upstream endpoint `a` and downstream endpoint `b`
(a direct edge from `a` to `b`). -/
def edgeStep {B P M G PM AM : Type} (g : Graph B P M G PM AM) (a b : Int) : Prop :=
  ∃ e ∈ g.edges, e.upstream_node_id = a ∧ e.downstream_node_id = b

theorem transGen_downStep_iff {B P M G PM AM : Type} (g : Graph B P M G PM AM)
    (a b : Int) :
    Relation.TransGen (stepRel (fun e => e.downstream_node_id)
      (fun e => e.upstream_node_id) g.edges) a b ↔
    Relation.TransGen (edgeStep g) b a := by
  constructor
  · intro h
    rw [← Relation.transGen_swap]
    exact Relation.TransGen.mono
      (fun x y hxy => by
        obtain ⟨e, he, h1, h2⟩ := hxy
        exact ⟨e, he, h2, h1⟩) h
  · intro h
    have h' := Relation.transGen_swap.mpr h
    exact Relation.TransGen.mono
      (fun x y hxy => by
        obtain ⟨e, he, h1, h2⟩ := hxy
        exact ⟨e, he, h2, h1⟩) h'

/-- Concrete test node with id 0 (payload types instantiated at `Unit`). -/
def node00 : Node Unit Unit Unit :=
  ⟨0, "node00", (), (), (), "pass_through", "pass_through", false, false⟩

/-- Concrete test node with id 1. -/
def node01 : Node Unit Unit Unit :=
  ⟨1, "node01", (), (), (), "pass_through", "pass_through", false, false⟩

/-- Concrete test node with id 2. -/
def node02 : Node Unit Unit Unit :=
  ⟨2, "node02", (), (), (), "pass_through", "pass_through", false, false⟩

/-- Nodes `{0, 1, 2}`. -/
def sampleNodes : List (Node Unit Unit Unit) := [node00, node01, node02]

/-- A pull-method registry holding the single key `"get"`. -/
def testPms : List (String × Unit) := [("get", ())]

/-- An aggregation-method registry holding the single key `"pass_through"`. -/
def testAms : List (String × Unit) := [("pass_through", ())]

/-- The three-cycle `0→1`, `1→2`, `2→0`. -/
def cycEdges : List Edge :=
  [⟨10, "edge_node00->node01", 1, 0, "get", "get"⟩,
   ⟨20, "edge_node01->node02", 2, 1, "get", "get"⟩,
   ⟨30, "edge_node02->node00", 0, 2, "get", "get"⟩]

/-- The acyclic chain `0→1`, `1→2`. -/
def chainEdges : List Edge :=
  [⟨10, "edge_node00->node01", 1, 0, "get", "get"⟩,
   ⟨20, "edge_node01->node02", 2, 1, "get", "get"⟩]

theorem cyc_discover_none : ∀ f : Nat,
    discoverUpstream cycEdges f 0 = none ∧ discoverUpstream cycEdges f 1 = none ∧
      discoverUpstream cycEdges f 2 = none := by
  intro f
  induction f with
  | zero => exact ⟨rfl, rfl, rfl⟩
  | succ f ih =>
    obtain ⟨h0, h1, h2⟩ := ih
    simp only [discoverUpstream, cycEdges] at h0 h1 h2 ⊢
    refine ⟨?_, ?_, ?_⟩
    · simp [discoverGen, discoverList, h2]
    · simp [discoverGen, discoverList, h0]
    · simp [discoverGen, discoverList, h1]

/-- C2 (code_bug): a three-node directed cycle `0→1`, `1→2`, `2→0` fails
construction with the cycle-detected error at every recursion limit; but the
detection is NOT a bounded traversal with explicit visited/in-progress
marking: it is recursion-depth-dependent, so the acyclic chain `0→1→2`
already fails with the same cycle-detected error at recursion limit 2,
while it constructs successfully at limit 3. -/
theorem C2_cycle_detection :
    (∀ limit : Nat, mkGraph limit sampleNodes cycEdges () testPms testAms =
      .error (.cycleDetected true)) ∧
    mkGraph 2 sampleNodes chainEdges () testPms testAms =
      .error (.cycleDetected true) ∧
    mkGraph 3 sampleNodes chainEdges () testPms testAms =
      .ok (⟨sampleNodes, chainEdges, (), testPms, testAms⟩, []) := by
  refine ⟨?_, by decide, by decide⟩
  intro limit
  have h0 := (cyc_discover_none limit).1
  have hup : (Graph.mk sampleNodes cycEdges () testPms testAms :
      Graph Unit Unit Unit Unit Unit Unit).upstream_node_ids limit = none := by
    simp only [Graph.upstream_node_ids, discoverAll, sampleNodes, node00]
    simp [h0]
  simp only [mkGraph]
  rw [if_neg (by decide), if_neg (by decide), if_neg (by decide), if_neg (by decide),
    hup]

theorem mkGraph_fieldErrors {B P M G PM AM : Type} (limit : Nat)
    (nodes : List (Node B P M)) (edges : List Edge) (gv : G)
    (pms : List (String × PM)) (ams : List (String × AM))
    (h : dupCheck (nodes.map fun n => (n.id, n.name)) ≠ none ∨
      edgeFieldCheck edges ≠ none) :
    mkGraph limit nodes edges gv pms ams =
      .error (.fieldErrors (dupCheck (nodes.map fun n => (n.id, n.name)))
        (edgeFieldCheck edges)) := by
  simp only [mkGraph]
  rw [if_pos h]

theorem mkGraph_missingPullKeys {B P M G PM AM : Type} (limit : Nat)
    (nodes : List (Node B P M)) (edges : List Edge) (gv : G)
    (pms : List (String × PM)) (ams : List (String × AM))
    (h1 : dupCheck (nodes.map fun n => (n.id, n.name)) = none)
    (h2 : edgeFieldCheck edges = none)
    (h : missingUpstreamPullKeys pms edges ≠ [] ∨
      missingDownstreamPullKeys pms edges ≠ []) :
    mkGraph limit nodes edges gv pms ams =
      .error (.missingPullMethodKeys (missingUpstreamPullKeys pms edges)
        (missingDownstreamPullKeys pms edges)) := by
  simp only [mkGraph]
  rw [if_neg (by simp [h1, h2]), if_pos h]

/-- C1 (amended): graph construction either returns a validated graph or
fails; the two field-level check-groups (node id/name uniqueness and edge
id/name uniqueness / edge-pair duplication) are aggregated into one failure
naming both; each later check-group reports every violation within the
group (all edges with a missing upstream key and all edges with a missing
downstream key together); but the later groups run sequentially and the
first failing group masks the rest — in particular a missing pull-method
key on an edge masks a missing aggregation-method key on a node. -/
theorem C1_per_group_aggregation {B P M G PM AM : Type} (limit : Nat)
    (nodes : List (Node B P M)) (edges : List Edge) (gv : G)
    (pms : List (String × PM)) (ams : List (String × AM)) :
    (dupCheck (nodes.map fun n => (n.id, n.name)) ≠ none ∨
        edgeFieldCheck edges ≠ none →
      mkGraph limit nodes edges gv pms ams =
        .error (.fieldErrors (dupCheck (nodes.map fun n => (n.id, n.name)))
          (edgeFieldCheck edges))) ∧
    (dupCheck (nodes.map fun n => (n.id, n.name)) = none →
      edgeFieldCheck edges = none →
      missingUpstreamPullKeys pms edges ≠ [] ∨
        missingDownstreamPullKeys pms edges ≠ [] →
      mkGraph limit nodes edges gv pms ams =
        .error (.missingPullMethodKeys (missingUpstreamPullKeys pms edges)
          (missingDownstreamPullKeys pms edges)) ∧
      (∀ e ∈ edges, e.upstream_method_key ∉ pms.map Prod.fst →
        (e.id, e.name, e.upstream_method_key) ∈ missingUpstreamPullKeys pms edges) ∧
      (∀ e ∈ edges, e.downstream_method_key ∉ pms.map Prod.fst →
        (e.id, e.name, e.downstream_method_key) ∈ missingDownstreamPullKeys pms edges)) := by
  constructor
  · exact mkGraph_fieldErrors limit nodes edges gv pms ams
  · intro h1 h2 h
    refine ⟨mkGraph_missingPullKeys limit nodes edges gv pms ams h1 h2 h, ?_, ?_⟩
    · intro e he hk
      rw [missingUpstreamPullKeys, List.mem_map]
      exact ⟨e, List.mem_filter.mpr ⟨he, decide_eq_true hk⟩, rfl⟩
    · intro e he hk
      rw [missingDownstreamPullKeys, List.mem_map]
      exact ⟨e, List.mem_filter.mpr ⟨he, decide_eq_true hk⟩, rfl⟩

/-- Nodes for the C1 counterexample: node 0 references the aggregation key
`"missing_agg"`, absent from the registry. -/
def c1Nodes : List (Node Unit Unit Unit) :=
  [⟨0, "node00", (), (), (), "missing_agg", "missing_agg", false, false⟩, node01]

/-- Edge for the C1 counterexample: it references the pull key
`"missing_pull"`, absent from the registry. -/
def c1Edges : List Edge :=
  [⟨10, "edge_node00->node01", 1, 0, "get", "missing_pull"⟩]

/-- C1 (counterexample): on an input violating two distinct check-groups at
once — the edge's upstream pull-method key `"missing_pull"` is absent from
`pull_methods` AND node 0's aggregation keys `"missing_agg"` are absent
from `agg_methods` — construction fails reporting ONLY the pull-method-key
group; the aggregation-method-key violations (nonempty below) are absent
from the error, refuting "the failure reports all of them". -/
theorem C1_counterexample :
    mkGraph 10 c1Nodes c1Edges () testPms testAms =
      .error (.missingPullMethodKeys [(10, "edge_node00->node01", "missing_pull")] []) ∧
    missingDownstreamAggKeys testAms c1Nodes = [(0, "node00", "missing_agg")] ∧
    missingUpstreamAggKeys testAms c1Nodes = [(0, "node00", "missing_agg")] := by
  decide

/-- Edges `0→1` and `0→2`. -/
def c3Edges : List Edge :=
  [⟨10, "edge_node00->node01", 1, 0, "get", "get"⟩,
   ⟨30, "edge_node00->node02", 2, 0, "get", "get"⟩]

/-- C3 (counterexample): on nodes `{0,1,2}` with edges `0→1`, `0→2`, both
input orders construct successfully and `root_nodes = [0]`,
`leaf_nodes = [1,2]`; but with the reversed input lists `leaf_nodes` comes
back as `[2,1]`, not `[1,2]` — the results agree only as sets, not as
lists, refuting "reversing the input lists yields the same result". -/
theorem C3_counterexample :
    mkGraph 10 sampleNodes c3Edges () testPms testAms =
      .ok (⟨sampleNodes, c3Edges, (), testPms, testAms⟩, []) ∧
    mkGraph 10 sampleNodes.reverse c3Edges.reverse () testPms testAms =
      .ok (⟨sampleNodes.reverse, c3Edges.reverse, (), testPms, testAms⟩, []) ∧
    (Graph.mk sampleNodes c3Edges () testPms testAms).root_nodes.map Node.id = [0] ∧
    (Graph.mk sampleNodes c3Edges () testPms testAms).leaf_nodes.map Node.id = [1, 2] ∧
    (Graph.mk sampleNodes.reverse c3Edges.reverse () testPms
      testAms).root_nodes.map Node.id = [0] ∧
    (Graph.mk sampleNodes.reverse c3Edges.reverse () testPms
      testAms).leaf_nodes.map Node.id = [2, 1] ∧
    ([2, 1] : List Int) ≠ [1, 2] := by
  decide

/-- C3 (amended): for every graph, `root_nodes` is exactly the nodes whose
id never appears as any edge's `downstream_node_id` and `leaf_nodes` is
exactly the nodes whose id never appears as any edge's
`upstream_node_id`; and permuting the input `nodes`/`edges` lists leaves
both results unchanged up to order (as sets/permutations — the list order
follows the node input order). -/
theorem C3_root_leaf_characterization {B P M G PM AM : Type} :
    (∀ (g : Graph B P M G PM AM) (n : Node B P M),
      n ∈ g.root_nodes ↔ n ∈ g.nodes ∧ ∀ e ∈ g.edges, e.downstream_node_id ≠ n.id) ∧
    (∀ (g : Graph B P M G PM AM) (n : Node B P M),
      n ∈ g.leaf_nodes ↔ n ∈ g.nodes ∧ ∀ e ∈ g.edges, e.upstream_node_id ≠ n.id) ∧
    (∀ g g' : Graph B P M G PM AM, g'.nodes.Perm g.nodes → g'.edges.Perm g.edges →
      g'.root_nodes.Perm g.root_nodes ∧ g'.leaf_nodes.Perm g.leaf_nodes) :=
  ⟨mem_root_nodes, mem_leaf_nodes,
    fun g g' hn he => ⟨root_nodes_perm g g' hn he, leaf_nodes_perm g g' hn he⟩⟩

/-- C3 (witness): the order-independence part of the amended claim at the
concrete graph of the counterexample — the reversed-input graph's root and
leaf node lists are permutations of the original ones. -/
theorem C3_witness :
    (Graph.mk sampleNodes.reverse c3Edges.reverse () testPms
      testAms).root_nodes.Perm
      (Graph.mk sampleNodes c3Edges () testPms testAms).root_nodes ∧
    (Graph.mk sampleNodes.reverse c3Edges.reverse () testPms
      testAms).leaf_nodes.Perm
      (Graph.mk sampleNodes c3Edges () testPms testAms).leaf_nodes :=
  C3_root_leaf_characterization.2.2
    (Graph.mk sampleNodes c3Edges () testPms testAms)
    (Graph.mk sampleNodes.reverse c3Edges.reverse () testPms testAms)
    (by decide) (by decide)

/-- C4: on every graph accepted by construction at recursion limit `limit`,
`discover_upstream` terminates (returns a value) for every node and its
result is exactly the set of node ids from which the node is reachable
along directed edges, with duplicates removed and sorted by ascending id;
`discover_downstream` is the symmetric result following edges forward. -/
theorem C4_ancestors_descendants {B P M G PM AM : Type} {limit : Nat}
    {nodes : List (Node B P M)} {edges : List Edge} {gv : G}
    {pms : List (String × PM)} {ams : List (String × AM)}
    {g : Graph B P M G PM AM} {ws : List GraphWarning}
    (h : mkGraph limit nodes edges gv pms ams = .ok (g, ws)) :
    ∀ n ∈ g.nodes,
      (∃ l, n.discover_upstream g limit = some l ∧
        (∀ a, a ∈ l ↔ Relation.TransGen (edgeStep g) a n.id) ∧
        l.Sorted (· < ·) ∧ l.Nodup) ∧
      (∃ l, n.discover_downstream g limit = some l ∧
        (∀ a, a ∈ l ↔ Relation.TransGen (edgeStep g) n.id a) ∧
        l.Sorted (· < ·) ∧ l.Nodup) := by
  have hg := (mkGraph_ok_inv h).1
  subst hg
  intro n hn
  obtain ⟨⟨lu, hlu⟩, ⟨ld, hld⟩⟩ := mkGraph_ok_discover h n hn
  constructor
  · refine ⟨lu, hlu, ?_, ?_, ?_⟩
    · intro a
      exact discoverGen_mem _ _ _ _ _ _ hlu a
    · exact (discoverGen_sorted _ _ _ _ _ _ hlu).1
    · exact (discoverGen_sorted _ _ _ _ _ _ hlu).2
  · refine ⟨ld, hld, ?_, ?_, ?_⟩
    · intro a
      rw [← transGen_downStep_iff]
      exact discoverGen_mem _ _ _ _ _ _ hld a
    · exact (discoverGen_sorted _ _ _ _ _ _ hld).1
    · exact (discoverGen_sorted _ _ _ _ _ _ hld).2

/-- C4 (witness): the claim instantiated on the validated graph with nodes
`{0,1,2}` and edges `0→1`, `0→2`, at node 2: its ancestor list is `[0]`,
`0` is connected to it by a directed path, and the list is sorted and
duplicate-free. -/
theorem C4_witness :
    node02.discover_upstream (Graph.mk sampleNodes c3Edges () testPms testAms) 10 =
      some [0] ∧
    Relation.TransGen (edgeStep (Graph.mk sampleNodes c3Edges () testPms testAms))
      0 node02.id ∧
    ([0] : List Int).Sorted (· < ·) ∧ ([0] : List Int).Nodup := by
  obtain ⟨⟨l, hl, hmem, hs, hnd⟩, -⟩ :=
    @C4_ancestors_descendants Unit Unit Unit Unit Unit Unit 10 sampleNodes c3Edges
      () testPms testAms (Graph.mk sampleNodes c3Edges () testPms testAms) []
      (by decide) node02 (by decide)
  have hcomp : node02.discover_upstream
      (Graph.mk sampleNodes c3Edges () testPms testAms) 10 = some [0] := by decide
  have hleq : l = [0] := Option.some.inj (hl.symm.trans hcomp)
  subst hleq
  exact ⟨hcomp, (hmem 0).mp (by decide), hs, hnd⟩

/-- C5: on every graph accepted by construction, for every node `n` and
every member `a` of its discovered ancestor list, `a` is the id of a node
of the graph and `n.id` is a member of that node's discovered descendant
list — ancestor and descendant sets are mutually consistent with edge
direction. -/
theorem C5_ancestor_descendant_consistency {B P M G PM AM : Type} {limit : Nat}
    {nodes : List (Node B P M)} {edges : List Edge} {gv : G}
    {pms : List (String × PM)} {ams : List (String × AM)}
    {g : Graph B P M G PM AM} {ws : List GraphWarning}
    (h : mkGraph limit nodes edges gv pms ams = .ok (g, ws)) :
    ∀ n ∈ g.nodes, ∀ la, n.discover_upstream g limit = some la →
      ∀ a ∈ la, ∃ m ∈ g.nodes, m.id = a ∧
        ∃ ld, m.discover_downstream g limit = some ld ∧ n.id ∈ ld := by
  obtain ⟨hg, -, -, -, -, -, -, hinvU, hinvD, -, -, -⟩ := mkGraph_ok_inv h
  subst hg
  intro n hn la hla a ha
  have htg : Relation.TransGen
      (stepRel (fun e => e.upstream_node_id) (fun e => e.downstream_node_id) edges)
      a n.id := (discoverGen_mem _ _ _ _ _ _ hla a).mp ha
  obtain ⟨b, ⟨e, he, hsrc, -⟩, -⟩ := Relation.TransGen.head'_iff.mp htg
  have hsrc' : e.upstream_node_id = a := hsrc
  have hrefs := invalid_nil_refs hinvU hinvD e he
  obtain ⟨m, hm, hmid⟩ := List.mem_map.mp (hsrc' ▸ hrefs.1)
  refine ⟨m, hm, hmid, ?_⟩
  obtain ⟨-, ⟨ld, hld⟩⟩ := mkGraph_ok_discover h m hm
  refine ⟨ld, hld, ?_⟩
  have hdown : Relation.TransGen
      (stepRel (fun e => e.downstream_node_id) (fun e => e.upstream_node_id) edges)
      n.id m.id := by
    rw [transGen_downStep_iff (Graph.mk nodes edges gv pms ams)]
    exact hmid ▸ htg
  exact (discoverGen_mem _ _ _ _ _ _ hld n.id).mpr hdown

/-- C5 (witness): the claim instantiated on the validated graph with nodes
`{0,1,2}` and edges `0→1`, `0→2`, at node 2 and its ancestor 0: node 2's id
is in node 0's descendant list `[1, 2]`. -/
theorem C5_witness :
    node02.id ∈ ([1, 2] : List Int) ∧
    node00.discover_downstream (Graph.mk sampleNodes c3Edges () testPms testAms) 10 =
      some [1, 2] := by
  obtain ⟨m, hm, hmid, ld, hld, hmem⟩ :=
    @C5_ancestor_descendant_consistency Unit Unit Unit Unit Unit Unit 10 sampleNodes
      c3Edges () testPms testAms (Graph.mk sampleNodes c3Edges () testPms testAms) []
      (by decide) node02 (by decide) [0] (by decide) 0 (by decide)
  simp only [sampleNodes, List.mem_cons, List.not_mem_nil, or_false] at hm
  have hmeq : m = node00 := by
    rcases hm with rfl | rfl | rfl
    · rfl
    · exact absurd hmid (by decide)
    · exact absurd hmid (by decide)
  subst hmeq
  have hcomp : node00.discover_downstream
      (Graph.mk sampleNodes c3Edges () testPms testAms) 10 = some [1, 2] := by decide
  have hleq : ld = [1, 2] := Option.some.inj (hld.symm.trans hcomp)
  subst hleq
  exact ⟨hmem, hcomp⟩

/-- C10: on every graph accepted by construction, no node's own id appears
in its discovered ancestor list nor in its discovered descendant list. -/
theorem C10_not_own_ancestor {B P M G PM AM : Type} {limit : Nat}
    {nodes : List (Node B P M)} {edges : List Edge} {gv : G}
    {pms : List (String × PM)} {ams : List (String × AM)}
    {g : Graph B P M G PM AM} {ws : List GraphWarning}
    (h : mkGraph limit nodes edges gv pms ams = .ok (g, ws)) :
    ∀ n ∈ g.nodes, ∀ lu ld, n.discover_upstream g limit = some lu →
      n.discover_downstream g limit = some ld →
      n.id ∉ lu ∧ n.id ∉ ld := by
  have hg := (mkGraph_ok_inv h).1
  subst hg
  intro n hn lu ld hlu hld
  constructor
  · intro hmem
    exact discoverGen_no_self_cycle _ _ _ _ _ _ hlu
      ((discoverGen_mem _ _ _ _ _ _ hlu n.id).mp hmem)
  · intro hmem
    exact discoverGen_no_self_cycle _ _ _ _ _ _ hld
      ((discoverGen_mem _ _ _ _ _ _ hld n.id).mp hmem)

/-- C10 (witness): the claim instantiated on the validated graph with nodes
`{0,1,2}` and edges `0→1`, `0→2`, at node 1. -/
theorem C10_witness :
    node01.id ∉ ([0] : List Int) ∧ node01.id ∉ ([] : List Int) :=
  @C10_not_own_ancestor Unit Unit Unit Unit Unit Unit 10 sampleNodes c3Edges ()
    testPms testAms (Graph.mk sampleNodes c3Edges () testPms testAms) []
    (by decide) node01 (by decide) [0] [] (by decide) (by decide)

theorem dupCheck_ids_case (pairs : List (Int × String)) (i : Int)
    (h : 1 < (pairs.filter fun p => decide (p.1 = i)).length)
    (hn : (pairs.map Prod.snd).Nodup) :
    dupCheck pairs = some (.dupIds (dupsIds pairs)) ∧
    (i, pairs.filter fun p => decide (p.1 = i)) ∈ dupsIds pairs := by
  have hmem := mem_dupsIds pairs i h
  have hdn := dupsNames_eq_nil_of_nodup pairs hn
  refine ⟨?_, hmem⟩
  simp only [dupCheck, hdn]
  rw [if_pos (List.ne_nil_of_mem hmem), if_neg (by simp)]

theorem dupCheck_names_case (pairs : List (Int × String)) (s : String)
    (h : 1 < (pairs.filter fun p => decide (p.2 = s)).length)
    (hn : (pairs.map Prod.fst).Nodup) :
    dupCheck pairs = some (.dupNames (dupsNames pairs)) ∧
    (s, pairs.filter fun p => decide (p.2 = s)) ∈ dupsNames pairs := by
  have hmem := mem_dupsNames pairs s h
  have hdi := dupsIds_eq_nil_of_nodup pairs hn
  refine ⟨?_, hmem⟩
  simp only [dupCheck, hdi]
  rw [if_neg (by simp), if_pos (List.ne_nil_of_mem hmem)]

theorem dupCheck_both_case (pairs : List (Int × String)) (i : Int) (s : String)
    (hI : 1 < (pairs.filter fun p => decide (p.1 = i)).length)
    (hS : 1 < (pairs.filter fun p => decide (p.2 = s)).length) :
    dupCheck pairs = some (.dupBoth (dupsIds pairs) (dupsNames pairs)) ∧
    (i, pairs.filter fun p => decide (p.1 = i)) ∈ dupsIds pairs ∧
    (s, pairs.filter fun p => decide (p.2 = s)) ∈ dupsNames pairs := by
  have hmi := mem_dupsIds pairs i hI
  have hms := mem_dupsNames pairs s hS
  refine ⟨?_, hmi, hms⟩
  simp only [dupCheck]
  rw [if_pos (List.ne_nil_of_mem hmi), if_pos (List.ne_nil_of_mem hms)]

theorem edgeFieldCheck_dup {edges : List Edge} {d : DupError}
    (h : dupCheck (edges.map fun e => (e.id, e.name)) = some d) :
    edgeFieldCheck edges = some (.dup d) := by
  simp only [edgeFieldCheck, h]

/-- C6: two nodes sharing an id (distinct names) make construction fail with
the duplicated-ids error whose group for that id lists all entries carrying
it (both offenders); two nodes sharing a name (distinct ids) fail
analogously; a duplicated id and a duplicated name together fail with the
single combined error carrying both dicts; and the same rule applies to the
edge collection. -/
theorem C6_duplicate_identifiers {B P M G PM AM : Type} (limit : Nat)
    (nodes : List (Node B P M)) (edges : List Edge) (gv : G)
    (pms : List (String × PM)) (ams : List (String × AM)) :
    (∀ i : Int,
      1 < ((nodes.map fun n => (n.id, n.name)).filter fun p => decide (p.1 = i)).length →
      ((nodes.map fun n => (n.id, n.name)).map Prod.snd).Nodup →
      mkGraph limit nodes edges gv pms ams =
        .error (.fieldErrors
          (some (.dupIds (dupsIds (nodes.map fun n => (n.id, n.name)))))
          (edgeFieldCheck edges)) ∧
      (i, (nodes.map fun n => (n.id, n.name)).filter fun p => decide (p.1 = i)) ∈
        dupsIds (nodes.map fun n => (n.id, n.name))) ∧
    (∀ s : String,
      1 < ((nodes.map fun n => (n.id, n.name)).filter fun p => decide (p.2 = s)).length →
      ((nodes.map fun n => (n.id, n.name)).map Prod.fst).Nodup →
      mkGraph limit nodes edges gv pms ams =
        .error (.fieldErrors
          (some (.dupNames (dupsNames (nodes.map fun n => (n.id, n.name)))))
          (edgeFieldCheck edges)) ∧
      (s, (nodes.map fun n => (n.id, n.name)).filter fun p => decide (p.2 = s)) ∈
        dupsNames (nodes.map fun n => (n.id, n.name))) ∧
    (∀ (i : Int) (s : String),
      1 < ((nodes.map fun n => (n.id, n.name)).filter fun p => decide (p.1 = i)).length →
      1 < ((nodes.map fun n => (n.id, n.name)).filter fun p => decide (p.2 = s)).length →
      mkGraph limit nodes edges gv pms ams =
        .error (.fieldErrors
          (some (.dupBoth (dupsIds (nodes.map fun n => (n.id, n.name)))
            (dupsNames (nodes.map fun n => (n.id, n.name)))))
          (edgeFieldCheck edges)) ∧
      (i, (nodes.map fun n => (n.id, n.name)).filter fun p => decide (p.1 = i)) ∈
        dupsIds (nodes.map fun n => (n.id, n.name)) ∧
      (s, (nodes.map fun n => (n.id, n.name)).filter fun p => decide (p.2 = s)) ∈
        dupsNames (nodes.map fun n => (n.id, n.name))) ∧
    (∀ i : Int,
      1 < ((edges.map fun e => (e.id, e.name)).filter fun p => decide (p.1 = i)).length →
      ((edges.map fun e => (e.id, e.name)).map Prod.snd).Nodup →
      mkGraph limit nodes edges gv pms ams =
        .error (.fieldErrors (dupCheck (nodes.map fun n => (n.id, n.name)))
          (some (.dup (.dupIds (dupsIds (edges.map fun e => (e.id, e.name))))))) ∧
      (i, (edges.map fun e => (e.id, e.name)).filter fun p => decide (p.1 = i)) ∈
        dupsIds (edges.map fun e => (e.id, e.name))) := by
  refine ⟨?_, ?_, ?_, ?_⟩
  · intro i hlen hnames
    obtain ⟨hck, hmem⟩ := dupCheck_ids_case _ i hlen hnames
    refine ⟨?_, hmem⟩
    have := mkGraph_fieldErrors limit nodes edges gv pms ams (Or.inl (by rw [hck]; simp))
    rw [hck] at this
    exact this
  · intro s hlen hids
    obtain ⟨hck, hmem⟩ := dupCheck_names_case _ s hlen hids
    refine ⟨?_, hmem⟩
    have := mkGraph_fieldErrors limit nodes edges gv pms ams (Or.inl (by rw [hck]; simp))
    rw [hck] at this
    exact this
  · intro i s hI hS
    obtain ⟨hck, hmi, hms⟩ := dupCheck_both_case _ i s hI hS
    refine ⟨?_, hmi, hms⟩
    have := mkGraph_fieldErrors limit nodes edges gv pms ams (Or.inl (by rw [hck]; simp))
    rw [hck] at this
    exact this
  · intro i hlen hnames
    obtain ⟨hck, hmem⟩ := dupCheck_ids_case _ i hlen hnames
    have hef := edgeFieldCheck_dup hck
    refine ⟨?_, hmem⟩
    have := mkGraph_fieldErrors limit nodes edges gv pms ams (Or.inr (by rw [hef]; simp))
    rw [hef] at this
    exact this

/-- Nodes with a duplicated id 0 and distinct names. -/
def c6Nodes : List (Node Unit Unit Unit) :=
  [node00, ⟨0, "node1000", (), (), (), "pass_through", "pass_through", false, false⟩]

/-- C6 (witness): the duplicated-id part of the claim on two nodes both with
id 0 and names `"node00"`, `"node1000"`: construction fails with the
duplicated-ids error and the group for id 0 names both offending entries. -/
theorem C6_witness :
    mkGraph 10 c6Nodes [] () testPms testAms =
      .error (.fieldErrors
        (some (.dupIds (dupsIds (c6Nodes.map fun n => (n.id, n.name)))))
        (edgeFieldCheck [])) ∧
    ((0 : Int), [((0 : Int), "node00"), ((0 : Int), "node1000")]) ∈
      dupsIds (c6Nodes.map fun n => (n.id, n.name)) := by
  have h := (C6_duplicate_identifiers 10 c6Nodes [] () testPms testAms).1 0
    (by decide) (by decide)
  refine ⟨h.1, ?_⟩
  have hgrp : (c6Nodes.map fun n => (n.id, n.name)).filter
      (fun p => decide (p.1 = 0)) = [(0, "node00"), (0, "node1000")] := by decide
  exact hgrp ▸ h.2

theorem edgeFieldCheck_dupedEdges {edges : List Edge}
    (hd : dupCheck (edges.map fun e => (e.id, e.name)) = none)
    (hne : (scanEdges edges [] [] []).1 ≠ [] ∨ (scanEdges edges [] [] []).2 ≠ []) :
    edgeFieldCheck edges =
      some (.dupedEdges (scanEdges edges [] [] []).1 (scanEdges edges [] [] []).2) := by
  simp only [edgeFieldCheck, hd]
  rw [if_pos hne]

/-- C7: constructing an `Edge` whose upstream and downstream node ids
coincide (self-loop) fails at edge construction, independent of any graph;
a graph whose edge list repeats an `(upstream, downstream)` pair fails with
an error whose same-direction list names the repeated edge; a graph
containing an edge whose reverse pair is already present fails with the
same error kind, whose bidirectional list names that edge; both lists live
in the one `dupedEdges` error, so both are reported together when both
occur. -/
theorem C7_edge_duplication {B P M G PM AM : Type} (limit : Nat)
    (nodes : List (Node B P M)) (gv : G) (pms : List (String × PM))
    (ams : List (String × AM)) :
    (∀ (i : Int) (nm : String) (x : Int) (dk uk : String),
      mkEdge i nm x x dk uk = .error (.selfLoop i nm)) ∧
    (∀ (l1 : List Edge) (e2 : Edge) (l2 : List Edge),
      dupCheck ((l1 ++ e2 :: l2).map fun e => (e.id, e.name)) = none →
      (∃ e1 ∈ l1, (e1.upstream_node_id, e1.downstream_node_id) =
        (e2.upstream_node_id, e2.downstream_node_id)) →
      mkGraph limit nodes (l1 ++ e2 :: l2) gv pms ams =
        .error (.fieldErrors (dupCheck (nodes.map fun n => (n.id, n.name)))
          (some (.dupedEdges (scanEdges (l1 ++ e2 :: l2) [] [] []).1
            (scanEdges (l1 ++ e2 :: l2) [] [] []).2))) ∧
      (e2.id, e2.name) ∈ (scanEdges (l1 ++ e2 :: l2) [] [] []).1) ∧
    (∀ (l1 : List Edge) (e2 : Edge) (l2 : List Edge),
      dupCheck ((l1 ++ e2 :: l2).map fun e => (e.id, e.name)) = none →
      (∃ e1 ∈ l1, (e1.upstream_node_id, e1.downstream_node_id) =
        (e2.downstream_node_id, e2.upstream_node_id)) →
      mkGraph limit nodes (l1 ++ e2 :: l2) gv pms ams =
        .error (.fieldErrors (dupCheck (nodes.map fun n => (n.id, n.name)))
          (some (.dupedEdges (scanEdges (l1 ++ e2 :: l2) [] [] []).1
            (scanEdges (l1 ++ e2 :: l2) [] [] []).2))) ∧
      (e2.id, e2.name) ∈ (scanEdges (l1 ++ e2 :: l2) [] [] []).2) := by
  refine ⟨?_, ?_, ?_⟩
  · intro i nm x dk uk
    rw [mkEdge, if_pos rfl]
  · intro l1 e2 l2 hd hex
    have hmem := scanEdges_dup_reported l1 e2 l2 [] [] [] (Or.inr hex)
    have hef := edgeFieldCheck_dupedEdges hd (Or.inl (List.ne_nil_of_mem hmem))
    refine ⟨?_, hmem⟩
    have := mkGraph_fieldErrors limit nodes (l1 ++ e2 :: l2) gv pms ams
      (Or.inr (by rw [hef]; simp))
    rw [hef] at this
    exact this
  · intro l1 e2 l2 hd hex
    have hmem := scanEdges_bidir_reported l1 e2 l2 [] [] [] (Or.inr hex)
    have hef := edgeFieldCheck_dupedEdges hd (Or.inr (List.ne_nil_of_mem hmem))
    refine ⟨?_, hmem⟩
    have := mkGraph_fieldErrors limit nodes (l1 ++ e2 :: l2) gv pms ams
      (Or.inr (by rw [hef]; simp))
    rw [hef] at this
    exact this

/-- Edge `0→1`, a same-direction duplicate of it, and the reverse edge
`1→0`. -/
def c7Edges : List Edge :=
  [⟨10, "edge_node00->node01", 1, 0, "get", "get"⟩,
   ⟨20, "edge_node00->node01_dup", 1, 0, "get", "get"⟩,
   ⟨30, "edge_node01->node00", 0, 1, "get", "get"⟩]

/-- C7 (witness): a self-loop edge fails at edge construction; on the edge
list with a same-direction duplicate (id 20) and a bidirectional reverse
(id 30) both present, construction fails with the single error naming the
duplicate in its same-direction list and the reverse edge in its
bidirectional list. -/
theorem C7_witness :
    mkEdge 40 "edge_self" 5 5 "get" "get" = .error (.selfLoop 40 "edge_self") ∧
    mkGraph 10 sampleNodes c7Edges () testPms testAms =
      .error (.fieldErrors none
        (some (.dupedEdges [(20, "edge_node00->node01_dup")]
          [(30, "edge_node01->node00")]))) ∧
    ((20 : Int), "edge_node00->node01_dup") ∈ (scanEdges c7Edges [] [] []).1 ∧
    ((30 : Int), "edge_node01->node00") ∈ (scanEdges c7Edges [] [] []).2 := by
  have hC := C7_edge_duplication 10 sampleNodes () testPms testAms
  obtain ⟨hself, hdup, hbid⟩ := hC
  have h2 := hdup [⟨10, "edge_node00->node01", 1, 0, "get", "get"⟩]
    ⟨20, "edge_node00->node01_dup", 1, 0, "get", "get"⟩
    [⟨30, "edge_node01->node00", 0, 1, "get", "get"⟩] (by decide) (by decide)
  have h3 := hbid [⟨10, "edge_node00->node01", 1, 0, "get", "get"⟩,
      ⟨20, "edge_node00->node01_dup", 1, 0, "get", "get"⟩]
    ⟨30, "edge_node01->node00", 0, 1, "get", "get"⟩ [] (by decide) (by decide)
  refine ⟨hself 40 "edge_self" 5 "get" "get", ?_, h2.2, h3.2⟩
  have heq : (Except.error
      (.fieldErrors (dupCheck (sampleNodes.map fun n => (n.id, n.name)))
        (some (.dupedEdges (scanEdges c7Edges [] [] []).1
          (scanEdges c7Edges [] [] []).2))) :
        Except GraphError (Graph Unit Unit Unit Unit Unit Unit × List GraphWarning)) =
      .error (.fieldErrors none
        (some (.dupedEdges [(20, "edge_node00->node01_dup")]
          [(30, "edge_node01->node00")]))) := by decide
  exact h2.1.trans heq

/-- An edge referencing pull keys absent from the registry in both
directions. -/
def c1wEdges : List Edge :=
  [⟨10, "edge_node00->node01", 1, 0, "missing_down", "missing_up"⟩]

/-- C1 (witness): the pull-method-key group of the amended claim on one
edge with both keys missing — the single failure names the edge in both the
missing-upstream and the missing-downstream list. -/
theorem C1_witness :
    mkGraph 10 sampleNodes c1wEdges () testPms testAms =
      .error (.missingPullMethodKeys (missingUpstreamPullKeys testPms c1wEdges)
        (missingDownstreamPullKeys testPms c1wEdges)) ∧
    ((10 : Int), "edge_node00->node01", "missing_up") ∈
      missingUpstreamPullKeys testPms c1wEdges ∧
    ((10 : Int), "edge_node00->node01", "missing_down") ∈
      missingDownstreamPullKeys testPms c1wEdges := by
  have h := (C1_per_group_aggregation 10 sampleNodes c1wEdges () testPms testAms).2
    (by decide) (by decide) (by decide)
  exact ⟨h.1,
    h.2.1 ⟨10, "edge_node00->node01", 1, 0, "missing_down", "missing_up"⟩
      (by decide) (by decide),
    h.2.2 ⟨10, "edge_node00->node01", 1, 0, "missing_down", "missing_up"⟩
      (by decide) (by decide)⟩

/-- C8: every successfully constructed `WorkUnit` has
`risk_weighted_value = unconditional_value + (success_value - unconditional_value) * probability_of_success / 100`;
in particular probabilities 50, 20 and 90 with `success_value = 60`,
`unconditional_value = 30` give 45, 36 and 57. -/
theorem C8_risk_weighted_value :
    (∀ (i : Int) (ds du : List Int) (p sv uv : Int) (w : WorkUnit),
      mkWorkUnit i ds du p sv uv = .ok w →
      w.risk_weighted_value = (uv : ℚ) + ((sv : ℚ) - (uv : ℚ)) * ((p : ℚ) / 100)) ∧
    (mkWorkUnit 0 [] [] 50 60 30 = .ok ⟨0, [], [], 50, 60, 30⟩ ∧
      (⟨0, [], [], 50, 60, 30⟩ : WorkUnit).risk_weighted_value = 45) ∧
    (mkWorkUnit 0 [] [] 20 60 30 = .ok ⟨0, [], [], 20, 60, 30⟩ ∧
      (⟨0, [], [], 20, 60, 30⟩ : WorkUnit).risk_weighted_value = 36) ∧
    (mkWorkUnit 0 [] [] 90 60 30 = .ok ⟨0, [], [], 90, 60, 30⟩ ∧
      (⟨0, [], [], 90, 60, 30⟩ : WorkUnit).risk_weighted_value = 57) := by
  refine ⟨?_, ⟨by decide, by norm_num [WorkUnit.risk_weighted_value]⟩,
    ⟨by decide, by norm_num [WorkUnit.risk_weighted_value]⟩,
    ⟨by decide, by norm_num [WorkUnit.risk_weighted_value]⟩⟩
  intro i ds du p sv uv w hw
  simp only [mkWorkUnit] at hw
  split_ifs at hw <;>
    first
      | exact Except.noConfusion hw
      | (simp only [Except.ok.injEq] at hw; subst hw; rfl)

/-- C8 (witness): the formula part of the claim applied at the concrete
accepted WorkUnit with probability 50, success value 60, unconditional
value 30. -/
theorem C8_witness :
    (⟨0, [], [], 50, 60, 30⟩ : WorkUnit).risk_weighted_value =
      ((30 : Int) : ℚ) + (((60 : Int) : ℚ) - ((30 : Int) : ℚ)) *
        (((50 : Int) : ℚ) / 100) :=
  C8_risk_weighted_value.1 0 [] [] 50 60 30 ⟨0, [], [], 50, 60, 30⟩ (by decide)

/-- C9: a graph whose nodes include one touched by no edge still constructs
successfully, and the orphan report is a warning on the side channel, not
an error: a single node with no edges (aggregation keys present in the
registry, recursion limit at least 1) constructs successfully with exactly
one warning naming that node; and in general every successful construction
carries exactly one orphan warning listing the orphaned `(id, name)` pairs
whenever any orphan exists. -/
theorem C9_orphan_warning {B P M G PM AM : Type} :
    (∀ (limit : Nat) (n : Node B P M) (gv : G) (pms : List (String × PM))
      (ams : List (String × AM)),
      n.pull_from_downstream_agg_key ∈ ams.map Prod.fst →
      n.pull_from_upstream_agg_key ∈ ams.map Prod.fst →
      mkGraph (limit + 1) [n] [] gv pms ams =
        .ok (⟨[n], [], gv, pms, ams⟩, [.orphanedNodes [(n.id, n.name)]])) ∧
    (∀ (limit : Nat) (nodes : List (Node B P M)) (edges : List Edge) (gv : G)
      (pms : List (String × PM)) (ams : List (String × AM))
      (g : Graph B P M G PM AM) (ws : List GraphWarning),
      mkGraph limit nodes edges gv pms ams = .ok (g, ws) →
      orphanedNodePairs nodes edges ≠ [] →
      ws = [.orphanedNodes (orphanedNodePairs nodes edges)]) := by
  constructor
  · intro limit n gv pms ams hd hu
    have hnd : dupCheck ([n].map fun n => (n.id, n.name)) = none := by
      simp [dupCheck, dupsIds, dupsNames, uniqKeys, uniqKeysAux]
    have hagg1 : missingDownstreamAggKeys ams [n] = [] := by
      simp [missingDownstreamAggKeys, hd]
    have hagg2 : missingUpstreamAggKeys ams [n] = [] := by
      simp [missingUpstreamAggKeys, hu]
    have horph : orphanedNodePairs [n] ([] : List Edge) = [(n.id, n.name)] := by
      simp [orphanedNodePairs]
    simp only [mkGraph]
    rw [if_neg (by simp [hnd, edgeFieldCheck, dupCheck, dupsIds, dupsNames, scanEdges,
      uniqKeys, uniqKeysAux])]
    rw [if_neg (by simp [missingUpstreamPullKeys, missingDownstreamPullKeys])]
    rw [if_neg (by simp [hagg1, hagg2])]
    rw [if_neg (by simp [invalidUpstreamNodeIds, invalidDownstreamNodeIds])]
    have hup : (Graph.mk [n] [] gv pms ams : Graph B P M G PM AM).upstream_node_ids
        (limit + 1) = some [(n.id, [])] := rfl
    have hdn : (Graph.mk [n] [] gv pms ams : Graph B P M G PM AM).downstream_node_ids
        (limit + 1) = some [(n.id, [])] := rfl
    rw [hup, hdn]
    simp [horph]
  · intro limit nodes edges gv pms ams g ws h hne
    obtain ⟨-, -, -, -, -, -, -, -, -, -, -, hws⟩ := mkGraph_ok_inv h
    rw [hws, if_pos hne]

/-- C9 (witness): the single-node instance — one node, no edges,
construction succeeds with exactly the one orphan warning naming node 0. -/
theorem C9_witness :
    mkGraph 10 [node00] [] () testPms testAms =
      .ok (⟨[node00], [], (), testPms, testAms⟩,
        [.orphanedNodes [(node00.id, node00.name)]]) :=
  (@C9_orphan_warning Unit Unit Unit Unit Unit Unit).1 9 node00 () testPms testAms
    (by decide) (by decide)
